import Mathlib

/-!
Shallow embedding of the analytics component of the mindful-minutes-api
repository (`internal/services/analytics.go`), together with theorems
checking the natural-language specification against it.

Conventions of the embedding:
* Go `time.Time` values produced by `time.Parse("2006-01-02", s)` are UTC
  midnights of calendar dates; they are modelled by `SDate` (a year/month/day
  record) and, where the code subtracts timestamps, by `toUnixSec` — a
  second count on a timeline shifted so that it stays in `Nat`
  (day 0 is 0400 BCE March 1; only differences of timestamps ever matter).
* Database timestamps (`created_at`) are modelled as `Nat` seconds on that
  same timeline; the session store is modelled as a `List Session` and each
  SQL query of the Go code is embedded as a pure function over that list.
* Go's `float64` division for the `hours` field is modelled by exact `ℚ`
  division (all values reachable here are exact in `float64` up to the
  documented rounding of binary floats, which no claim depends on).
* Fallible store access is modelled by `Except ε`; the Go pattern
  `if err != nil { return nil, err }` becomes a `match` on the `Except`.
-/

namespace MindfulMinutes

/-- A calendar date, the parse result of a `"YYYY-MM-DD"` string.
Years are naturals (the store only produces four-digit years). -/
structure SDate where
  year : Nat
  month : Nat
  day : Nat
deriving DecidableEq, Repr

/-- Gregorian leap-year test, as used by Go's `time` package. -/
def isLeap (y : Nat) : Bool :=
  y % 4 == 0 && (y % 100 != 0 || y % 400 == 0)

/-- Number of days in a month, as validated by Go's `time.Parse`. -/
def daysInMonth (y m : Nat) : Nat :=
  if m = 2 then (if isLeap y then 29 else 28)
  else if m = 4 ∨ m = 6 ∨ m = 9 ∨ m = 11 then 30
  else 31

/-- A structurally valid calendar date (month and day in range, four-digit
year) — exactly the dates accepted by `time.Parse("2006-01-02", ·)`. -/
def validDate (d : SDate) : Bool :=
  decide (1 ≤ d.month) && decide (d.month ≤ 12) &&
  decide (1 ≤ d.day) && decide (d.day ≤ daysInMonth d.year d.month) &&
  decide (d.year ≤ 9999)

/-- The decimal digit character for `n` (`0 ↦ '0'`, …, `9 ↦ '9'`). -/
def digitChar (n : Nat) : Char := Char.ofNat (48 + n)

/-- Two-digit zero-padded decimal rendering (for months and days). -/
def pad2 (n : Nat) : List Char := [digitChar (n / 10), digitChar (n % 10)]

/-- Four-digit zero-padded decimal rendering (for years). -/
def pad4 (n : Nat) : List Char :=
  [digitChar (n / 1000), digitChar (n / 100 % 10),
   digitChar (n / 10 % 10), digitChar (n % 10)]

/-- Go's `t.Format("2006-01-02")`: the canonical `"YYYY-MM-DD"` rendering. -/
def formatDate (d : SDate) : String :=
  ⟨pad4 d.year ++ '-' :: (pad2 d.month ++ '-' :: pad2 d.day)⟩

/-- Whether a character is a decimal digit. -/
def isDigitC (c : Char) : Bool := 48 ≤ c.toNat && c.toNat ≤ 57

/-- Numeric value of a digit character. -/
def digVal (c : Char) : Nat := c.toNat - 48

/-- Go's `time.Parse("2006-01-02", s)`: accepts exactly the ten-character
zero-padded `"YYYY-MM-DD"` strings whose month and day are in range,
returning the parsed date; otherwise an error (here `none`). -/
def parseDate (s : String) : Option SDate :=
  match s.data with
  | [y1, y2, y3, y4, h1, m1, m2, h2, d1, d2] =>
    if isDigitC y1 && isDigitC y2 && isDigitC y3 && isDigitC y4 &&
       isDigitC m1 && isDigitC m2 && isDigitC d1 && isDigitC d2 &&
       h1 = '-' && h2 = '-' then
      let y := digVal y1 * 1000 + digVal y2 * 100 + digVal y3 * 10 + digVal y4
      let m := digVal m1 * 10 + digVal m2
      let d := digVal d1 * 10 + digVal d2
      if 1 ≤ m ∧ m ≤ 12 ∧ 1 ≤ d ∧ d ≤ daysInMonth y m then
        some ⟨y, m, d⟩
      else none
    else none
  | _ => none

/-- Go's zero `time.Time` (January 1 of year 1): the value the code ends up
using because it ignores the error of `time.Parse`. -/
def zeroDate : SDate := ⟨1, 1, 1⟩

/-- `time.Parse` with the error ignored, as all call sites in
`analytics.go` do: a failed parse yields the zero time. -/
def parseDateD (s : String) : SDate := (parseDate s).getD zeroDate

/-- A well-formed session-date string: it parses, and re-rendering the
parse result gives the string back (i.e. it is canonical `"YYYY-MM-DD"`,
which is what the store's `DATE()` column produces). -/
def validDateStr (s : String) : Bool :=
  match parseDate s with
  | some d => formatDate d == s
  | none => false

/-- Go's `t.AddDate(0, 0, -1)` on a date value: the previous calendar day. -/
def prevDay (d : SDate) : SDate :=
  if 1 < d.day then ⟨d.year, d.month, d.day - 1⟩
  else if 1 < d.month then ⟨d.year, d.month - 1, daysInMonth d.year (d.month - 1)⟩
  else ⟨d.year - 1, 12, 31⟩

/-- Day count of a date on a proleptic-Gregorian timeline (civil-calendar
day numbering, shifted by 400 years so it stays in `Nat` for all
parseable dates). Differences of `daysFromCivil` are calendar-day
distances. -/
def daysFromCivil (dt : SDate) : Nat :=
  let y2 := if dt.month ≤ 2 then dt.year + 399 else dt.year + 400
  let era := y2 / 400
  let yoe := y2 % 400
  let mp := if 2 < dt.month then dt.month - 3 else dt.month + 9
  let doy := (153 * mp + 2) / 5 + dt.day - 1
  let doe := yoe * 365 + yoe / 4 - yoe / 100 + doy
  era * 146097 + doe

/-- The Unix-style second count of a date's UTC midnight (on the shifted
timeline): what Go's `time.Time` arithmetic sees for parsed dates. -/
def toUnixSec (d : SDate) : Nat := 86400 * daysFromCivil d

/-- Go's `currDate.Sub(prevDate).Hours() == 24`: the timestamp difference
is exactly 24 hours. For UTC midnights this is an exact integer test
(the float division is exact at 24.0 only for a difference of exactly
86400 seconds, and `Duration` saturation only affects differences of
centuries, which are never 24h). -/
def subIs24Hours (currD prevD : SDate) : Bool :=
  toUnixSec currD == toUnixSec prevD + 86400

/-- Go's `t.Format("Mon")` weekday label (day 0 of the shifted timeline
is a Wednesday). -/
def weekdayName (d : SDate) : String :=
  ["Wed", "Thu", "Fri", "Sat", "Sun", "Mon", "Tue"].getD (daysFromCivil d % 7) ""

/-! ## Streak computations (`calculateLongestStreak`, `calculateCurrentStreak`) -/

/-- Loop body of `calculateLongestStreak` (Go lines 68–85): scans the
ascending list pairwise; `cur` is `currentStreak`, `longest` the running
maximum, with the trailing `if currentStreak > longestStreak` folded into
the base case. -/
def longestAuxD (prevD : SDate) : List SDate → Nat → Nat → Nat
  | [], cur, longest => max longest cur
  | d :: tl, cur, longest =>
    if subIs24Hours d prevD then longestAuxD d tl (cur + 1) longest
    else longestAuxD d tl 1 (max longest cur)

/-- `calculateLongestStreak` (Go lines 52–88): returns 0 on the empty
list, otherwise reverses the descending list into ascending order, parses
each string (errors ignored), and scans adjacent pairs with the
`Sub(..).Hours() == 24` test, starting both counters at 1. -/
def calculateLongestStreak (sessionDates : List String) : Nat :=
  if sessionDates.isEmpty then 0
  else
    match sessionDates.reverse.map parseDateD with
    | [] => 0
    | d :: tl => longestAuxD d tl 1 1

/-- Loop body of `calculateCurrentStreak` (Go lines 114–125): walks the
descending list comparing each parsed date's canonical rendering against
the expected date's rendering, decrementing the expected date on each
match and stopping at the first mismatch. -/
def currentAuxStr : List String → SDate → Nat → Nat
  | [], _, cnt => cnt
  | s :: tl, expected, cnt =>
    if formatDate (parseDateD s) == formatDate expected then
      currentAuxStr tl (prevDay expected) (cnt + 1)
    else cnt

/-- `calculateCurrentStreak` (Go lines 91–128), with the process clock
(`time.Now()`) made explicit as the parameter `now`: returns 0 on the
empty list; anchors at `today` if the head equals today's string, else at
`yesterday` if it equals yesterday's string, else returns 0; then counts
the walk from the re-parsed anchor string. -/
def calculateCurrentStreak (now : SDate) (sessionDates : List String) : Nat :=
  match sessionDates with
  | [] => 0
  | d0 :: _ =>
    let today := formatDate now
    let yesterday := formatDate (prevDay now)
    if d0 == today then currentAuxStr sessionDates (parseDateD today) 0
    else if d0 == yesterday then currentAuxStr sessionDates (parseDateD yesterday) 0
    else 0

/-- `CalculateStreaks` result record (Go `StreakInfo`). -/
structure StreakInfo where
  current : Nat
  longest : Nat
deriving DecidableEq, Repr

/-! ### Specification-level streak functions

These follow the wording of the spec: dates are discrete day units
(day-count integers), adjacency is a day-count difference of one. -/

/-- Spec-level scan: same run-tracking as the code's loop but over
day-count integers, with adjacency `d = prev + 1` ("two dates are
consecutive calendar days"). -/
def longestAuxNat (prevN : Nat) : List Nat → Nat → Nat → Nat
  | [], cur, longest => max longest cur
  | d :: tl, cur, longest =>
    if d = prevN + 1 then longestAuxNat d tl (cur + 1) longest
    else longestAuxNat d tl 1 (max longest cur)

/-- Spec-level longest streak over day-count integers: reverse the
descending list into ascending order, scan adjacent pairs extending a run
on consecutive days and restarting at 1 otherwise, return the maximum run
seen; 0 for the empty list. -/
def longestStreakSpec (ns : List Nat) : Nat :=
  match ns.reverse with
  | [] => 0
  | d :: tl => longestAuxNat d tl 1 1

/-- Spec-level walk of the current-streak computation, over dates: count
entries matching an expected date that decrements by one calendar day per
step, stopping at the first mismatch. -/
def countSpec : List SDate → SDate → Nat
  | [], _ => 0
  | d :: tl, e => if d = e then countSpec tl (prevDay e) + 1 else 0

/-- Spec-level current streak: 0 for the empty list or when the most
recent date is neither today nor yesterday; otherwise the count of the
anchored walk (which starts at the most recent date itself). -/
def currentStreakSpec (now : SDate) : List SDate → Nat
  | [] => 0
  | d0 :: tl =>
    if d0 = now ∨ d0 = prevDay now then countSpec (d0 :: tl) d0 else 0

/-- The day-count-difference reimplementation of the longest-streak
computation suggested by the spec: identical to `calculateLongestStreak`
except that the adjacency test compares day-count integers. -/
def longestStreakDayCount (sessionDates : List String) : Nat :=
  if sessionDates.isEmpty then 0
  else
    match sessionDates.reverse.map (fun s => daysFromCivil (parseDateD s)) with
    | [] => 0
    | d :: tl => longestAuxNat d tl 1 1

/-! ## Session store model

The Go code reads sessions through GORM queries. A session row carries a
user id, a creation timestamp (modelled as `Nat` seconds on the shifted
timeline), a duration in seconds, and a soft-delete marker. -/

/-- A session row (`models.Session`), restricted to the columns the
analytics queries read. -/
structure Session where
  userId : String
  createdAt : Nat
  durationSeconds : Nat
  deleted : Bool
deriving DecidableEq, Repr

/-- The calendar-day number of a timestamp: SQL `DATE(created_at)`. -/
def dayOfSec (t : Nat) : Nat := t / 86400

/-- Whether a session row is visible to a user's analytics queries:
`user_id = ? AND deleted_at IS NULL`. -/
def liveFor (uid : String) (s : Session) : Bool :=
  s.userId == uid && !s.deleted

/-- SQL `COALESCE(SUM(duration_seconds), 0)` over
`user_id = ? AND DATE(created_at) = ? AND deleted_at IS NULL`. -/
def sumOnDay (db : List Session) (uid : String) (d : SDate) : Nat :=
  ((db.filter (fun s => liveFor uid s && dayOfSec s.createdAt == daysFromCivil d)).map
    (fun s => s.durationSeconds)).sum

/-- SQL `COALESCE(SUM(duration_seconds), 0)` over
`user_id = ? AND created_at >= lo AND created_at <= hi AND deleted_at IS NULL`. -/
def sumInRange (db : List Session) (uid : String) (lo hi : Nat) : Nat :=
  ((db.filter (fun s => liveFor uid s && decide (lo ≤ s.createdAt) &&
      decide (s.createdAt ≤ hi))).map (fun s => s.durationSeconds)).sum

/-- Creation-time-descending order used by `ORDER BY created_at DESC`. -/
def createdDesc (a b : Session) : Prop := b.createdAt ≤ a.createdAt

instance : DecidableRel createdDesc := fun _ _ => Nat.decLe _ _

instance : IsTotal Session createdDesc := ⟨fun a b => Nat.le_total b.createdAt a.createdAt⟩

instance : IsTrans Session createdDesc := ⟨fun _ _ _ h1 h2 => Nat.le_trans h2 h1⟩

/-- The store query of `GetRecentSessions`: non-deleted sessions of the
user ordered by creation time descending, capped at `limit` rows. -/
def recentQuery (db : List Session) (uid : String) (limit : Nat) : List Session :=
  ((db.filter (liveFor uid)).insertionSort createdDesc).take limit

/-- The session store as seen by the analytics component, with fallible
access (`ε` is the store's error type). `sessionDates` models the
`DISTINCT DATE(created_at) … ORDER BY session_date DESC` query of
`getSessionDates`; `daySum` and `rangeSum` the two aggregate queries;
`recentSessions` the limited descending query. -/
structure SessionStore (ε : Type) where
  sessionDates : Except ε (List String)
  daySum : SDate → Except ε Nat
  rangeSum : Nat → Nat → Except ε Nat
  recentSessions : Nat → Except ε (List Session)

/-- The store backed by an in-memory database that never fails, used to
settle the data-level claims: each field is the embedded SQL query over
`db`. The distinct-dates list is a parameter because the streak claims
quantify over it directly. -/
def pureStore (ε : Type) (dates : List String) (db : List Session) (uid : String) :
    SessionStore ε where
  sessionDates := .ok dates
  daySum := fun d => .ok (sumOnDay db uid d)
  rangeSum := fun lo hi => .ok (sumInRange db uid lo hi)
  recentSessions := fun limit => .ok (recentQuery db uid limit)

/-! ## Progress and dashboard operations -/

/-- `WeeklyProgress` entry (Go lines 15–19); `minutes` is integer. -/
structure WeeklyProgress where
  day : String
  date : String
  minutes : Nat
deriving DecidableEq, Repr

/-- `YearlyProgress` entry (Go lines 21–25); `hours` is Go `float64`,
modelled as an exact rational. -/
structure YearlyProgress where
  month : String
  hours : ℚ
  minutes : Nat
deriving DecidableEq, Repr

/-- The requesting user's profile snapshot (`models.User`, restricted to
scalar columns; the dashboard only copies it through). -/
structure User where
  id : String
  email : String
  firstName : String
  lastName : String
deriving DecidableEq, Repr

/-- The dashboard aggregate (Go `DashboardData`). -/
structure DashboardData where
  user : User
  streaks : StreakInfo
  weeklyProgress : List WeeklyProgress
  yearlyProgress : List YearlyProgress
  recentSessions : List Session
deriving DecidableEq, Repr

/-- `CalculateStreaks` (Go lines 36–49): fetch the distinct session dates
(propagating a store error), then compute both streaks purely. -/
def CalculateStreaksE {ε : Type} (st : SessionStore ε) (now : SDate) :
    Except ε StreakInfo :=
  match st.sessionDates with
  | .error e => .error e
  | .ok sessionDates =>
    .ok { current := calculateCurrentStreak now sessionDates
          longest := calculateLongestStreak sessionDates }

/-- The Go loop pattern "append to a slice, return early on the first
query error", abstracted over the per-element query. -/
def collectE {ε α β : Type} (f : α → Except ε β) : List α → Except ε (List β)
  | [] => .ok []
  | x :: tl =>
    match f x with
    | .error e => .error e
    | .ok b =>
      match collectE f tl with
      | .error e => .error e
      | .ok bs => .ok (b :: bs)

/-- `GetWeeklyProgress` (Go lines 143–171), clock explicit: for `i` from 6
down to 0, query the day sum for `now - i` days (the first failing query
aborts the whole call) and append an entry with the day label, the
date string, and floor-of-60 minutes. -/
def GetWeeklyProgressE {ε : Type} (st : SessionStore ε) (now : SDate) :
    Except ε (List WeeklyProgress) :=
  collectE (fun k =>
    let date := prevDay^[6 - k] now
    match st.daySum date with
    | .error e => .error e
    | .ok totalSeconds =>
      .ok { day := weekdayName date
            date := formatDate date
            minutes := totalSeconds / 60 }) (List.range 7)

/-- Month labels of `GetYearlyProgress` (Go lines 177–178). -/
def monthNames : List String :=
  ["Jan", "Feb", "Mar", "Apr", "May", "Jun",
   "Jul", "Aug", "Sep", "Oct", "Nov", "Dec"]

/-- First instant of month `m` of `year` as a timestamp:
`time.Date(year, m, 1, 0, 0, 0, 0, time.UTC)`. -/
def monthStartSec (year m : Nat) : Nat := toUnixSec ⟨year, m, 1⟩

/-- First instant of the month after month `m` of `year`:
`monthStart.AddDate(0, 1, 0)` (December rolls into January). -/
def nextMonthStartSec (year m : Nat) : Nat :=
  if m = 12 then toUnixSec ⟨year + 1, 1, 1⟩ else toUnixSec ⟨year, m + 1, 1⟩

/-- `GetYearlyProgress` (Go lines 174–205): for each of the 12 months,
query the duration sum over `[monthStart, monthEnd]` with
`monthEnd = monthStart.AddDate(0,1,0).Add(-time.Second)` (the first
failing query aborts), and build an entry with floor minutes and
real-valued hours. -/
def GetYearlyProgressE {ε : Type} (st : SessionStore ε) (year : Nat) :
    Except ε (List YearlyProgress) :=
  collectE (fun im =>
    let monthStart := monthStartSec year (im.1 + 1)
    let monthEnd := nextMonthStartSec year (im.1 + 1) - 1
    match st.rangeSum monthStart monthEnd with
    | .error e => .error e
    | .ok totalSeconds =>
      .ok { month := im.2
            hours := (totalSeconds : ℚ) / 3600
            minutes := totalSeconds / 60 }) monthNames.enum

/-- The limit sanitization of `GetRecentSessions` (Go lines 212–214):
`if limit <= 0 || limit > 100 { limit = 5 }`. -/
def sanitizeLimit (limit : Int) : Int :=
  if limit ≤ 0 ∨ 100 < limit then 5 else limit

/-- `GetRecentSessions` (Go lines 208–222): sanitize the limit, then run
the limited descending store query. -/
def GetRecentSessionsE {ε : Type} (st : SessionStore ε) (limit : Int) :
    Except ε (List Session) :=
  st.recentSessions (sanitizeLimit limit).toNat

/-- `GetDashboardData` (Go lines 225–258), clock explicit: runs the four
sub-operations in order, returning the first error; `year ≤ 0` is
replaced by the current calendar year before the yearly query. -/
def GetDashboardDataE {ε : Type} (st : SessionStore ε) (user : User)
    (year sessionLimit : Int) (now : SDate) : Except ε DashboardData :=
  match CalculateStreaksE st now with
  | .error e => .error e
  | .ok streaks =>
    match GetWeeklyProgressE st now with
    | .error e => .error e
    | .ok weeklyProgress =>
      let year2 := if year ≤ 0 then (now.year : Int) else year
      match GetYearlyProgressE st year2.toNat with
      | .error e => .error e
      | .ok yearlyProgress =>
        match GetRecentSessionsE st sessionLimit with
        | .error e => .error e
        | .ok recentSessions =>
          .ok { user := user
                streaks := streaks
                weeklyProgress := weeklyProgress
                yearlyProgress := yearlyProgress
                recentSessions := recentSessions }

/-! ### Specification-level progress functions -/

/-- The weekly sequence described by the spec: exactly one entry per day
of `[today-6, today]`, oldest first; entry `j` covers the day `6 - j`
days before today, with minutes the floor-of-60 of that day's duration
sum (0 when the day has no sessions). -/
def weeklySpecList (db : List Session) (uid : String) (now : SDate) :
    List WeeklyProgress :=
  (List.range 7).map (fun j =>
    let date := prevDay^[6 - j] now
    { day := weekdayName date
      date := formatDate date
      minutes := sumOnDay db uid date / 60 })

/-- The yearly sequence described by the spec: exactly 12 entries in
January→December order; month `m` (1-based) sums durations over the
inclusive window `[monthStart, nextMonthStart - 1]`, with floor minutes
and real-valued hours. -/
def yearlySpecList (db : List Session) (uid : String) (year : Nat) :
    List YearlyProgress :=
  (List.range 12).map (fun j =>
    let secs := sumInRange db uid (monthStartSec year (j + 1))
      (nextMonthStartSec year (j + 1) - 1)
    { month := monthNames.getD j ""
      hours := (secs : ℚ) / 3600
      minutes := secs / 60 })

/-- Total duration (seconds) of the user's non-deleted sessions created
within `year`: the inclusive window from the first instant of January to
one second before the next year's first instant. -/
def totalYearSeconds (db : List Session) (uid : String) (year : Nat) : Nat :=
  sumInRange db uid (monthStartSec year 1) (toUnixSec ⟨year + 1, 1, 1⟩ - 1)

/-- Decidable equality of store results, for evaluating the embedding at
concrete inputs. -/
instance {ε α : Type} [DecidableEq ε] [DecidableEq α] : DecidableEq (Except ε α) :=
  fun x y =>
  match x, y with
  | .error a, .error b =>
    if h : a = b then isTrue (congrArg Except.error h)
    else isFalse fun hc => h (Except.error.inj hc)
  | .ok a, .ok b =>
    if h : a = b then isTrue (congrArg Except.ok h)
    else isFalse fun hc => h (Except.ok.inj hc)
  | .error _, .ok _ => isFalse fun hc => Except.noConfusion hc
  | .ok _, .error _ => isFalse fun hc => Except.noConfusion hc

/-! ## Auxiliary notions for the streak invariant -/

/-- Length of the maximal prefix of a day-count list matching the
expected value `e`, `e - 1`, `e - 2`, … (the day-count shadow of the
current-streak walk). -/
def chainCount : List Nat → Nat → Nat
  | [], _ => 0
  | d :: tl, e => if d = e then chainCount tl (e - 1) + 1 else 0

/-- A list of day counts descending by exactly one at each step. -/
def descChain : List Nat → Prop
  | [] => True
  | [_] => True
  | a :: b :: tl => a = b + 1 ∧ descChain (b :: tl)

/-- A list of day counts ascending by exactly one at each step. -/
def ascChainL : List Nat → Prop
  | [] => True
  | [_] => True
  | a :: b :: tl => b = a + 1 ∧ ascChainL (b :: tl)

/-! ## Lemmas: longest streak -/

/-- The implementation's 24-hour test is exactly a day-count difference
of one. -/
lemma subIs24Hours_iff (a b : SDate) :
    subIs24Hours a b = true ↔ daysFromCivil a = daysFromCivil b + 1 := by
  simp only [subIs24Hours, toUnixSec, beq_iff_eq]
  omega

/-- The implementation's scan agrees with the day-count scan pointwise. -/
lemma longestAuxD_eq_nat (tl : List SDate) :
    ∀ prevD cur longest, longestAuxD prevD tl cur longest =
      longestAuxNat (daysFromCivil prevD) (tl.map daysFromCivil) cur longest := by
  induction tl with
  | nil => intro prevD cur longest; rfl
  | cons d tl ih =>
    intro prevD cur longest
    simp only [longestAuxD, longestAuxNat, List.map_cons]
    by_cases h : subIs24Hours d prevD = true
    · rw [if_pos h, if_pos ((subIs24Hours_iff d prevD).mp h), ih]
    · rw [if_neg h, if_neg fun hc => h ((subIs24Hours_iff d prevD).mpr hc), ih]

/-- `calculateLongestStreak` computes the specification's day-count scan
of the reversed list. -/
lemma calculateLongestStreak_eq_spec (l : List String) :
    calculateLongestStreak l =
      longestStreakSpec (l.map (fun s => daysFromCivil (parseDateD s))) := by
  simp only [calculateLongestStreak, longestStreakSpec, ← List.map_reverse]
  cases hl : l.reverse with
  | nil =>
    have : l = [] := by simpa using congrArg List.reverse hl
    subst this; rfl
  | cons d tl =>
    have hne : l.isEmpty = false := by
      cases l with
      | nil => simp at hl
      | cons a tl2 => rfl
    simp only [hne, Bool.false_eq_true, if_false, hl, List.map_cons]
    rw [longestAuxD_eq_nat, List.map_map]
    rfl

/-- `calculateLongestStreak` agrees with the day-count reimplementation. -/
lemma calculateLongestStreak_eq_dayCount (l : List String) :
    calculateLongestStreak l = longestStreakDayCount l := by
  simp only [calculateLongestStreak, longestStreakDayCount]
  cases hl : l.reverse with
  | nil => rfl
  | cons d tl =>
    simp only [List.map_cons]
    rw [longestAuxD_eq_nat, List.map_map]
    rfl

/-! ## Lemmas: date strings round-trip -/

lemma digitChar_toNat {k : Nat} (h : k ≤ 9) : (digitChar k).toNat = 48 + k := by
  interval_cases k <;> rfl

lemma isDigitC_digitChar {k : Nat} (h : k ≤ 9) : isDigitC (digitChar k) = true := by
  simp only [isDigitC, digitChar_toNat h, Bool.and_eq_true, decide_eq_true_eq]
  omega

lemma digVal_digitChar {k : Nat} (h : k ≤ 9) : digVal (digitChar k) = k := by
  simp only [digVal, digitChar_toNat h]
  omega

/-- Rendering a structurally valid date and parsing it back yields the
same date. -/
lemma parse_format (d : SDate) (h : validDate d = true) :
    parseDate (formatDate d) = some d := by
  obtain ⟨y, m, dd⟩ := d
  simp only [validDate, Bool.and_eq_true, decide_eq_true_eq] at h
  obtain ⟨⟨⟨⟨h1, h2⟩, h3⟩, h4⟩, h5⟩ := h
  have hdim : daysInMonth y m ≤ 31 := by
    unfold daysInMonth; split_ifs <;> omega
  have hy1 : y / 1000 ≤ 9 := by omega
  have hy2 : y / 100 % 10 ≤ 9 := by omega
  have hy3 : y / 10 % 10 ≤ 9 := by omega
  have hy4 : y % 10 ≤ 9 := by omega
  have hm1 : m / 10 ≤ 9 := by omega
  have hm2 : m % 10 ≤ 9 := by omega
  have hd1 : dd / 10 ≤ 9 := by omega
  have hd2 : dd % 10 ≤ 9 := by omega
  show parseDate ⟨[digitChar (y / 1000), digitChar (y / 100 % 10),
    digitChar (y / 10 % 10), digitChar (y % 10), '-', digitChar (m / 10),
    digitChar (m % 10), '-', digitChar (dd / 10), digitChar (dd % 10)]⟩ = _
  simp only [parseDate, isDigitC_digitChar hy1, isDigitC_digitChar hy2,
    isDigitC_digitChar hy3, isDigitC_digitChar hy4, isDigitC_digitChar hm1,
    isDigitC_digitChar hm2, isDigitC_digitChar hd1, isDigitC_digitChar hd2,
    digVal_digitChar hy1, digVal_digitChar hy2, digVal_digitChar hy3,
    digVal_digitChar hy4, digVal_digitChar hm1, digVal_digitChar hm2,
    digVal_digitChar hd1, digVal_digitChar hd2, Bool.and_self, Bool.and_true,
    Bool.true_and, if_true]
  have hmv : m / 10 * 10 + m % 10 = m := by omega
  have hdv : dd / 10 * 10 + dd % 10 = dd := by omega
  have hyv : y / 1000 * 1000 + y / 100 % 10 * 100 + y / 10 % 10 * 10 + y % 10 = y := by
    omega
  rw [hyv, hmv, hdv]
  simp only [decide_True, if_true]
  rw [if_pos ⟨h1, h2, h3, h4⟩]

/-- Every date produced by a successful parse is structurally valid. -/
lemma parse_valid {s : String} {d : SDate} (h : parseDate s = some d) :
    validDate d = true := by
  unfold parseDate at h
  split at h
  case h_2 => exact absurd h (by simp)
  case h_1 y1 y2 y3 y4 hy1 m1 m2 hy2 d1 d2 =>
    simp only [] at h
    split at h
    case isFalse => exact absurd h (by simp)
    case isTrue hdig =>
      split at h
      case isFalse => exact absurd h (by simp)
      case isTrue hrange =>
        injection h with h
        subst h
        simp only [Bool.and_eq_true, isDigitC, decide_eq_true_eq] at hdig
        obtain ⟨⟨⟨⟨⟨⟨⟨⟨⟨hc1, hc2⟩, hc3⟩, hc4⟩, hc5⟩, hc6⟩, hc7⟩, hc8⟩, _⟩, _⟩ := hdig
        obtain ⟨hr1, hr2, hr3, hr4⟩ := hrange
        simp only [validDate, Bool.and_eq_true, decide_eq_true_eq, digVal]
        refine ⟨⟨⟨⟨hr1, hr2⟩, hr3⟩, hr4⟩, by omega⟩

/-- Unpacking a well-formed date string: it parses to a valid date whose
canonical rendering is the string itself. -/
lemma validDateStr_elim {s : String} (h : validDateStr s = true) :
    parseDate s = some (parseDateD s) ∧ formatDate (parseDateD s) = s ∧
      validDate (parseDateD s) = true := by
  unfold validDateStr at h
  cases hp : parseDate s with
  | none => rw [hp] at h; exact absurd h (by simp)
  | some d =>
    rw [hp] at h
    have hfmt : formatDate d = s := by simpa using h
    have hd : parseDateD s = d := by simp [parseDateD, hp]
    exact ⟨congrArg some hd.symm, by rw [hd, hfmt], hd ▸ parse_valid hp⟩

/-- `formatDate` is injective on structurally valid dates. -/
lemma formatDate_inj {d1 d2 : SDate} (h1 : validDate d1 = true)
    (h2 : validDate d2 = true) (h : formatDate d1 = formatDate d2) : d1 = d2 := by
  have := parse_format d1 h1
  rw [h, parse_format d2 h2] at this
  injection this with this
  exact this.symm

/-! ## Lemmas: calendar-day arithmetic of `prevDay` and `daysFromCivil` -/

lemma isLeap_iff {y : Nat} :
    isLeap y = true ↔ (y % 4 = 0 ∧ (y % 100 ≠ 0 ∨ y % 400 = 0)) := by
  simp [isLeap, Bool.and_eq_true, Bool.or_eq_true]

lemma daysInMonth_pos (y m : Nat) : 1 ≤ daysInMonth y m := by
  unfold daysInMonth; split_ifs <;> omega

lemma daysInMonth_le (y m : Nat) : daysInMonth y m ≤ 31 := by
  unfold daysInMonth; split_ifs <;> omega

/-- `prevDay` preserves structural validity. -/
lemma prevDay_valid {d : SDate} (hv : validDate d = true) :
    validDate (prevDay d) = true := by
  obtain ⟨y, m, dd⟩ := d
  simp only [validDate, Bool.and_eq_true, decide_eq_true_eq] at hv ⊢
  obtain ⟨⟨⟨⟨h1, h2⟩, h3⟩, h4⟩, h5⟩ := hv
  unfold prevDay
  dsimp only
  split_ifs with hdd hm
  all_goals dsimp only
  · exact ⟨⟨⟨⟨h1, h2⟩, by omega⟩, by omega⟩, h5⟩
  · exact ⟨⟨⟨⟨by omega, by omega⟩, daysInMonth_pos y (m - 1)⟩, Nat.le_refl _⟩, h5⟩
  · exact ⟨⟨⟨⟨by omega, by omega⟩, by omega⟩, by rfl⟩, by omega⟩

/-- Within a month, stepping the day back decrements the day count. -/
lemma dfc_day_succ (y m dd : Nat) (h : 2 ≤ dd) :
    daysFromCivil ⟨y, m, dd - 1⟩ + 1 = daysFromCivil ⟨y, m, dd⟩ := by
  simp only [daysFromCivil]
  split_ifs <;> omega

/-- The last day of a month is one day before the first of the next. -/
lemma dfc_month_first (y m : Nat) (h2 : 2 ≤ m) (h12 : m ≤ 12) :
    daysFromCivil ⟨y, m - 1, daysInMonth y (m - 1)⟩ + 1 = daysFromCivil ⟨y, m, 1⟩ := by
  interval_cases m
  · norm_num [daysFromCivil, daysInMonth]
    omega
  · by_cases hly : isLeap y = true
    · have hl4 := isLeap_iff.mp hly
      norm_num [daysFromCivil, daysInMonth, hly]
      omega
    · have hb : isLeap y = false := by
        revert hly; cases isLeap y <;> simp
      have hl4 : ¬(y % 4 = 0 ∧ (y % 100 ≠ 0 ∨ y % 400 = 0)) :=
        fun hc => hly (isLeap_iff.mpr hc)
      norm_num [daysFromCivil, daysInMonth, hb]
      omega
  · norm_num [daysFromCivil, daysInMonth]
    omega
  · norm_num [daysFromCivil, daysInMonth]
    omega
  · norm_num [daysFromCivil, daysInMonth]
    omega
  · norm_num [daysFromCivil, daysInMonth]
    omega
  · norm_num [daysFromCivil, daysInMonth]
    omega
  · norm_num [daysFromCivil, daysInMonth]
    omega
  · norm_num [daysFromCivil, daysInMonth]
    omega
  · norm_num [daysFromCivil, daysInMonth]
    omega
  · norm_num [daysFromCivil, daysInMonth]
    omega

/-- December 31 is one day before January 1 of the next year. -/
lemma dfc_year_first (y : Nat) (hy : 1 ≤ y) :
    daysFromCivil ⟨y - 1, 12, 31⟩ + 1 = daysFromCivil ⟨y, 1, 1⟩ := by
  norm_num [daysFromCivil]
  omega

/-- Away from the `Nat`-truncation point `0000-01-01`, `prevDay` decrements
the civil day count by exactly one. -/
lemma daysFromCivil_prevDay {d : SDate} (hv : validDate d = true)
    (hne : d ≠ ⟨0, 1, 1⟩) : daysFromCivil (prevDay d) + 1 = daysFromCivil d := by
  obtain ⟨y, m, dd⟩ := d
  simp only [validDate, Bool.and_eq_true, decide_eq_true_eq] at hv
  obtain ⟨⟨⟨⟨h1, h2⟩, h3⟩, h4⟩, h5⟩ := hv
  unfold prevDay
  dsimp only
  split_ifs with hdd hm
  · exact dfc_day_succ y m dd (by omega)
  · have hdd1 : dd = 1 := by omega
    subst hdd1
    exact dfc_month_first y m (by omega) h2
  · have hdd1 : dd = 1 := by omega
    have hm1 : m = 1 := by omega
    subst hdd1; subst hm1
    have hy : 1 ≤ y := by
      rcases Nat.eq_zero_or_pos y with h0 | h0
      · exact absurd (by simp [h0]) hne
      · exact h0
    exact dfc_year_first y hy

/-- No structurally valid date precedes `0000-01-01` in civil day count. -/
lemma daysFromCivil_lower {d : SDate} (hv : validDate d = true) :
    146037 ≤ daysFromCivil d := by
  obtain ⟨y, m, dd⟩ := d
  simp only [validDate, Bool.and_eq_true, decide_eq_true_eq] at hv
  obtain ⟨⟨⟨⟨h1, h2⟩, h3⟩, h4⟩, h5⟩ := hv
  simp only [daysFromCivil]
  split_ifs <;> omega

/-! ## Lemmas: current streak -/

lemma parseDateD_format {d : SDate} (h : validDate d = true) :
    parseDateD (formatDate d) = d := by
  simp [parseDateD, parse_format d h]

/-- The implementation's walk (string comparisons against a re-rendered
expected date) agrees with the specification's date-level walk, on
well-formed inputs. -/
lemma currentAuxStr_eq_spec (l : List String) :
    ∀ e cnt, (∀ s ∈ l, validDateStr s = true) → validDate e = true →
      currentAuxStr l e cnt = countSpec (l.map parseDateD) e + cnt := by
  induction l with
  | nil => intro e cnt _ _; simp [currentAuxStr, countSpec]
  | cons s tl ih =>
    intro e cnt hvs hve
    have hs := validDateStr_elim (hvs s (List.mem_cons_self s tl))
    simp only [currentAuxStr, countSpec, List.map_cons, beq_iff_eq]
    by_cases h : formatDate (parseDateD s) = formatDate e
    · have hds : parseDateD s = e := formatDate_inj hs.2.2 hve h
      rw [if_pos h, if_pos hds,
        ih (prevDay e) (cnt + 1) (fun x hx => hvs x (List.mem_cons_of_mem _ hx))
          (prevDay_valid hve)]
      omega
    · rw [if_neg h, if_neg fun hc : parseDateD s = e => h (by rw [hc])]
      omega

/-- `calculateCurrentStreak` computes the specification's anchored
current-streak over the parsed dates, for a valid clock value and
well-formed date strings. -/
lemma calculateCurrentStreak_eq_spec (now : SDate) (l : List String)
    (hl : ∀ s ∈ l, validDateStr s = true) (hnow : validDate now = true) :
    calculateCurrentStreak now l = currentStreakSpec now (l.map parseDateD) := by
  cases l with
  | nil => rfl
  | cons s0 tl =>
    have hs0 := validDateStr_elim (hl s0 (List.mem_cons_self s0 tl))
    have hpv : validDate (prevDay now) = true := prevDay_valid hnow
    simp only [calculateCurrentStreak, currentStreakSpec, List.map_cons, beq_iff_eq]
    by_cases h1 : s0 = formatDate now
    · have hd0 : parseDateD s0 = now :=
        formatDate_inj hs0.2.2 hnow (by rw [hs0.2.1, h1])
      rw [if_pos h1, parseDateD_format hnow,
        currentAuxStr_eq_spec (s0 :: tl) now 0 hl hnow]
      rw [if_pos (Or.inl hd0)]
      simp only [List.map_cons, hd0, Nat.add_zero]
    · rw [if_neg h1]
      by_cases h2 : s0 = formatDate (prevDay now)
      · have hd0 : parseDateD s0 = prevDay now :=
          formatDate_inj hs0.2.2 hpv (by rw [hs0.2.1, h2])
        rw [if_pos h2, parseDateD_format hpv,
          currentAuxStr_eq_spec (s0 :: tl) (prevDay now) 0 hl hpv]
        rw [if_pos (Or.inr hd0)]
        simp only [List.map_cons, hd0, Nat.add_zero]
      · rw [if_neg h2, if_neg]
        rintro (hc | hc)
        · exact h1 (by rw [← hs0.2.1, hc])
        · exact h2 (by rw [← hs0.2.1, hc])

/-! ## Lemmas: duration sums and the yearly partition -/

lemma sumInRange_cons (s : Session) (tl : List Session) (uid : String) (lo hi : Nat) :
    sumInRange (s :: tl) uid lo hi =
      (if liveFor uid s = true ∧ lo ≤ s.createdAt ∧ s.createdAt ≤ hi
        then s.durationSeconds else 0) + sumInRange tl uid lo hi := by
  simp only [sumInRange, List.filter_cons]
  by_cases h : (liveFor uid s && decide (lo ≤ s.createdAt) &&
      decide (s.createdAt ≤ hi)) = true
  · simp only [Bool.and_eq_true, decide_eq_true_eq] at h
    rw [if_pos (by simpa [Bool.and_eq_true, decide_eq_true_eq] using h),
      if_pos ⟨h.1.1, h.1.2, h.2⟩]
    simp [sumInRange]
  · simp only [Bool.and_eq_true, decide_eq_true_eq] at h
    rw [if_neg (by simpa [Bool.and_eq_true, decide_eq_true_eq] using h),
      if_neg (fun hc => h ⟨⟨hc.1, hc.2.1⟩, hc.2.2⟩)]
    simp [sumInRange]

/-- An inclusive duration-sum window splits at any interior point. -/
lemma sumInRange_split (db : List Session) (uid : String) (lo mid hi : Nat)
    (h1 : lo ≤ mid) (h2 : mid ≤ hi + 1) (h3 : 1 ≤ mid) :
    sumInRange db uid lo hi =
      sumInRange db uid lo (mid - 1) + sumInRange db uid mid hi := by
  induction db with
  | nil => rfl
  | cons s tl ih =>
    rw [sumInRange_cons, sumInRange_cons, sumInRange_cons, ih]
    by_cases hl : liveFor uid s = true
    · simp only [hl, true_and]
      split_ifs <;> omega
    · rw [if_neg (fun hc => hl hc.1), if_neg (fun hc => hl hc.1),
        if_neg (fun hc => hl hc.1)]
      omega

lemma monthStart_pos (year : Nat) : 1 ≤ monthStartSec year 1 := by
  simp only [monthStartSec, toUnixSec]
  norm_num [daysFromCivil]
  omega

lemma monthStart_mono (year : Nat) {m : Nat} (h1 : 1 ≤ m) (h2 : m ≤ 11) :
    monthStartSec year m < monthStartSec year (m + 1) := by
  simp only [monthStartSec, toUnixSec]
  have h : daysFromCivil ⟨year, m, 1⟩ < daysFromCivil ⟨year, m + 1, 1⟩ := by
    interval_cases m <;> (norm_num [daysFromCivil]; try omega)
  omega

lemma monthStart12_lt (year : Nat) :
    monthStartSec year 12 < toUnixSec ⟨year + 1, 1, 1⟩ := by
  simp only [monthStartSec, toUnixSec]
  have h : daysFromCivil ⟨year, 12, 1⟩ < daysFromCivil ⟨year + 1, 1, 1⟩ := by
    norm_num [daysFromCivil]
    omega
  omega

lemma nextMonthStartSec_eq {m : Nat} (year : Nat) (h1 : 1 ≤ m) (h2 : m ≤ 11) :
    nextMonthStartSec year m = monthStartSec year (m + 1) := by
  rw [nextMonthStartSec, if_neg (by omega)]
  rfl

/-- The twelve inclusive month windows of a year partition the year's
inclusive window: their duration sums add up to the year's sum. -/
lemma year_partition (db : List Session) (uid : String) (year : Nat) :
    ((List.range 12).map (fun j =>
      sumInRange db uid (monthStartSec year (j + 1))
        (nextMonthStartSec year (j + 1) - 1))).sum =
      totalYearSeconds db uid year := by
  have e12 : List.range 12 = [0, 1, 2, 3, 4, 5, 6, 7, 8, 9, 10, 11] := rfl
  rw [e12]
  simp only [List.map_cons, List.map_nil, List.sum_cons, List.sum_nil]
  norm_num
  rw [show nextMonthStartSec year 1 = monthStartSec year 2 from
      nextMonthStartSec_eq year (by norm_num) (by norm_num),
    show nextMonthStartSec year 2 = monthStartSec year 3 from
      nextMonthStartSec_eq year (by norm_num) (by norm_num),
    show nextMonthStartSec year 3 = monthStartSec year 4 from
      nextMonthStartSec_eq year (by norm_num) (by norm_num),
    show nextMonthStartSec year 4 = monthStartSec year 5 from
      nextMonthStartSec_eq year (by norm_num) (by norm_num),
    show nextMonthStartSec year 5 = monthStartSec year 6 from
      nextMonthStartSec_eq year (by norm_num) (by norm_num),
    show nextMonthStartSec year 6 = monthStartSec year 7 from
      nextMonthStartSec_eq year (by norm_num) (by norm_num),
    show nextMonthStartSec year 7 = monthStartSec year 8 from
      nextMonthStartSec_eq year (by norm_num) (by norm_num),
    show nextMonthStartSec year 8 = monthStartSec year 9 from
      nextMonthStartSec_eq year (by norm_num) (by norm_num),
    show nextMonthStartSec year 9 = monthStartSec year 10 from
      nextMonthStartSec_eq year (by norm_num) (by norm_num),
    show nextMonthStartSec year 10 = monthStartSec year 11 from
      nextMonthStartSec_eq year (by norm_num) (by norm_num),
    show nextMonthStartSec year 11 = monthStartSec year 12 from
      nextMonthStartSec_eq year (by norm_num) (by norm_num),
    show nextMonthStartSec year 12 = toUnixSec ⟨year + 1, 1, 1⟩ from rfl]
  have hp : 1 ≤ monthStartSec year 1 := monthStart_pos year
  have o1 : monthStartSec year 1 < monthStartSec year 2 :=
    monthStart_mono year (by norm_num) (by norm_num)
  have o2 : monthStartSec year 2 < monthStartSec year 3 :=
    monthStart_mono year (by norm_num) (by norm_num)
  have o3 : monthStartSec year 3 < monthStartSec year 4 :=
    monthStart_mono year (by norm_num) (by norm_num)
  have o4 : monthStartSec year 4 < monthStartSec year 5 :=
    monthStart_mono year (by norm_num) (by norm_num)
  have o5 : monthStartSec year 5 < monthStartSec year 6 :=
    monthStart_mono year (by norm_num) (by norm_num)
  have o6 : monthStartSec year 6 < monthStartSec year 7 :=
    monthStart_mono year (by norm_num) (by norm_num)
  have o7 : monthStartSec year 7 < monthStartSec year 8 :=
    monthStart_mono year (by norm_num) (by norm_num)
  have o8 : monthStartSec year 8 < monthStartSec year 9 :=
    monthStart_mono year (by norm_num) (by norm_num)
  have o9 : monthStartSec year 9 < monthStartSec year 10 :=
    monthStart_mono year (by norm_num) (by norm_num)
  have o10 : monthStartSec year 10 < monthStartSec year 11 :=
    monthStart_mono year (by norm_num) (by norm_num)
  have o11 : monthStartSec year 11 < monthStartSec year 12 :=
    monthStart_mono year (by norm_num) (by norm_num)
  have o12 : monthStartSec year 12 < toUnixSec ⟨year + 1, 1, 1⟩ := monthStart12_lt year
  rw [totalYearSeconds]
  have t1 := sumInRange_split db uid (monthStartSec year 1) (monthStartSec year 2)
    (toUnixSec ⟨year + 1, 1, 1⟩ - 1) (by omega) (by omega) (by omega)
  have t2 := sumInRange_split db uid (monthStartSec year 2) (monthStartSec year 3)
    (toUnixSec ⟨year + 1, 1, 1⟩ - 1) (by omega) (by omega) (by omega)
  have t3 := sumInRange_split db uid (monthStartSec year 3) (monthStartSec year 4)
    (toUnixSec ⟨year + 1, 1, 1⟩ - 1) (by omega) (by omega) (by omega)
  have t4 := sumInRange_split db uid (monthStartSec year 4) (monthStartSec year 5)
    (toUnixSec ⟨year + 1, 1, 1⟩ - 1) (by omega) (by omega) (by omega)
  have t5 := sumInRange_split db uid (monthStartSec year 5) (monthStartSec year 6)
    (toUnixSec ⟨year + 1, 1, 1⟩ - 1) (by omega) (by omega) (by omega)
  have t6 := sumInRange_split db uid (monthStartSec year 6) (monthStartSec year 7)
    (toUnixSec ⟨year + 1, 1, 1⟩ - 1) (by omega) (by omega) (by omega)
  have t7 := sumInRange_split db uid (monthStartSec year 7) (monthStartSec year 8)
    (toUnixSec ⟨year + 1, 1, 1⟩ - 1) (by omega) (by omega) (by omega)
  have t8 := sumInRange_split db uid (monthStartSec year 8) (monthStartSec year 9)
    (toUnixSec ⟨year + 1, 1, 1⟩ - 1) (by omega) (by omega) (by omega)
  have t9 := sumInRange_split db uid (monthStartSec year 9) (monthStartSec year 10)
    (toUnixSec ⟨year + 1, 1, 1⟩ - 1) (by omega) (by omega) (by omega)
  have t10 := sumInRange_split db uid (monthStartSec year 10) (monthStartSec year 11)
    (toUnixSec ⟨year + 1, 1, 1⟩ - 1) (by omega) (by omega) (by omega)
  have t11 := sumInRange_split db uid (monthStartSec year 11) (monthStartSec year 12)
    (toUnixSec ⟨year + 1, 1, 1⟩ - 1) (by omega) (by omega) (by omega)
  omega

/-! ## Lemmas: the current streak never exceeds the longest -/

lemma chainCount_le_length : ∀ (ns : List Nat) (e : Nat), chainCount ns e ≤ ns.length := by
  intro ns
  induction ns with
  | nil => intro e; simp [chainCount]
  | cons d tl ih =>
    intro e
    simp only [chainCount, List.length_cons]
    split_ifs
    · have := ih (e - 1); omega
    · omega

lemma ascChainL_append_one : ∀ (xs : List Nat) (b a : Nat), ascChainL xs →
    xs.getLast? = some b → a = b + 1 → ascChainL (xs ++ [a]) := by
  intro xs
  induction xs with
  | nil => intro b a _ hl _; simp at hl
  | cons x tl ih =>
    intro b a hc hl ha
    cases tl with
    | nil =>
      simp only [List.getLast?_singleton, Option.some.injEq] at hl
      subst hl
      exact ⟨ha, trivial⟩
    | cons y tl2 =>
      obtain ⟨hxy, hrest⟩ := hc
      have hl2 : (y :: tl2).getLast? = some b := by
        rwa [List.getLast?_cons_cons] at hl
      exact ⟨hxy, ih b a hrest hl2 ha⟩

lemma descChain_reverse : ∀ (l : List Nat), descChain l → ascChainL l.reverse := by
  intro l
  induction l with
  | nil => intro _; trivial
  | cons a tl ih =>
    intro hd
    cases tl with
    | nil => trivial
    | cons b tl2 =>
      obtain ⟨hab, hrest⟩ := hd
      have hasc : ascChainL (b :: tl2).reverse := ih hrest
      have hlast : (b :: tl2).reverse.getLast? = some b := by
        rw [List.getLast?_reverse]
        rfl
      have := ascChainL_append_one (b :: tl2).reverse b a hasc hlast hab
      simpa [List.reverse_cons] using this

lemma chain_take_desc : ∀ (ns : List Nat) (e : Nat), ns.Pairwise (· > ·) →
    descChain (ns.take (chainCount ns e)) := by
  intro ns
  induction ns with
  | nil => intro e _; simp [chainCount, descChain]
  | cons d tl ih =>
    intro e hp
    by_cases hd : d = e
    · rw [show chainCount (d :: tl) e = chainCount tl (e - 1) + 1 by
        simp [chainCount, hd]]
      rw [List.take_succ_cons]
      have hp2 := (List.pairwise_cons.mp hp).2
      have ihd := ih (e - 1) hp2
      cases hk : tl.take (chainCount tl (e - 1)) with
      | nil => trivial
      | cons t0 rest =>
        cases tl with
        | nil => simp at hk
        | cons t0w tl2 =>
          have hkpos : 1 ≤ chainCount (t0w :: tl2) (e - 1) := by
            by_contra hc
            have : chainCount (t0w :: tl2) (e - 1) = 0 := by omega
            rw [this] at hk
            simp at hk
          have ht0w : t0w = e - 1 := by
            by_contra hc
            have : chainCount (t0w :: tl2) (e - 1) = 0 := by
              simp [chainCount, hc]
            omega
          have ht0 : t0 = t0w := by
            rcases Nat.exists_eq_add_of_le hkpos with ⟨k2, hk2⟩
            rw [hk2, Nat.add_comm, List.take_succ_cons] at hk
            exact (List.cons.injEq _ _ _ _ ▸ hk).1.symm
          have hgt : d > t0w :=
            (List.pairwise_cons.mp hp).1 t0w (List.mem_cons_self t0w tl2)
          refine ⟨?_, hk ▸ ihd⟩
          omega
    · rw [show chainCount (d :: tl) e = 0 by simp [chainCount, hd]]
      simp [descChain]

lemma longestAuxNat_chain : ∀ (tl : List Nat) (a cur longest : Nat),
    ascChainL (a :: tl) → cur + tl.length ≤ longestAuxNat a tl cur longest := by
  intro tl
  induction tl with
  | nil =>
    intro a cur longest _
    simp [longestAuxNat]
  | cons b tl2 ih =>
    intro a cur longest hc
    obtain ⟨hb, hrest⟩ := hc
    simp only [longestAuxNat, if_pos hb, List.length_cons]
    have := ih b (cur + 1) longest hrest
    omega

lemma longestAuxNat_suffix : ∀ (mid : List Nat) (a : Nat) (ctl : List Nat)
    (prevN cur longest : Nat), ascChainL (a :: ctl) → 1 ≤ cur →
    (a :: ctl).length ≤ longestAuxNat prevN (mid ++ a :: ctl) cur longest := by
  intro mid
  induction mid with
  | nil =>
    intro a ctl prevN cur longest hc hcur
    simp only [List.nil_append, longestAuxNat, List.length_cons]
    split_ifs
    · have := longestAuxNat_chain ctl a (cur + 1) longest hc
      omega
    · have := longestAuxNat_chain ctl a 1 (max longest cur) hc
      omega
  | cons m mid2 ih =>
    intro a ctl prevN cur longest hc hcur
    simp only [List.cons_append, longestAuxNat]
    split_ifs
    · exact ih a ctl m (cur + 1) longest hc (by omega)
    · exact ih a ctl m 1 (max longest cur) hc (by omega)

/-- On a strictly descending day-count list, the anchored prefix chain is
no longer than the longest-streak scan's result. -/
lemma chainCount_le_longest (d : Nat) (tl : List Nat)
    (hdesc : (d :: tl).Pairwise (· > ·)) :
    chainCount (d :: tl) d ≤ longestStreakSpec (d :: tl) := by
  have hc1 : 1 ≤ chainCount (d :: tl) d := by simp [chainCount]
  have hcle : chainCount (d :: tl) d ≤ (d :: tl).length :=
    chainCount_le_length (d :: tl) d
  have hdc : descChain ((d :: tl).take (chainCount (d :: tl) d)) :=
    chain_take_desc (d :: tl) d hdesc
  have hasc : ascChainL ((d :: tl).take (chainCount (d :: tl) d)).reverse :=
    descChain_reverse _ hdc
  have hlen : ((d :: tl).take (chainCount (d :: tl) d)).length =
      chainCount (d :: tl) d := by
    rw [List.length_take]
    omega
  have hne : ((d :: tl).take (chainCount (d :: tl) d)).reverse ≠ [] := by
    intro h0
    have := congrArg List.length h0
    simp only [List.length_reverse, hlen, List.length_nil] at this
    omega
  obtain ⟨a, ctl, hctl⟩ := List.exists_cons_of_ne_nil hne
  have hsplit : (d :: tl).reverse =
      ((d :: tl).drop (chainCount (d :: tl) d)).reverse ++ (a :: ctl) := by
    rw [← hctl, ← List.reverse_append, List.take_append_drop]
  have hlc : ctl.length + 1 = chainCount (d :: tl) d := by
    have := congrArg List.length hctl
    simp only [List.length_reverse, hlen, List.length_cons] at this
    omega
  rw [hctl] at hasc
  unfold longestStreakSpec
  rw [hsplit]
  cases hdrop : ((d :: tl).drop (chainCount (d :: tl) d)).reverse with
  | nil =>
    rw [List.nil_append]
    show chainCount (d :: tl) d ≤ longestAuxNat a ctl 1 1
    have := longestAuxNat_chain ctl a 1 1 hasc
    omega
  | cons z zs =>
    rw [List.cons_append]
    show chainCount (d :: tl) d ≤ longestAuxNat z (zs ++ a :: ctl) 1 1
    have := longestAuxNat_suffix zs a ctl z 1 1 hasc (by omega)
    simp only [List.length_cons] at this
    omega

/-- The implementation's current-streak walk is bounded by the day-count
prefix chain, on well-formed strictly descending inputs. -/
lemma currentAuxStr_le_chain : ∀ (l : List String) (e : SDate) (cnt : Nat),
    (∀ s ∈ l, validDateStr s = true) →
    l.Pairwise (fun a b => daysFromCivil (parseDateD b) < daysFromCivil (parseDateD a)) →
    validDate e = true →
    currentAuxStr l e cnt ≤
      chainCount (l.map fun s => daysFromCivil (parseDateD s)) (daysFromCivil e) + cnt := by
  intro l
  induction l with
  | nil => intro e cnt _ _ _; simp [currentAuxStr, chainCount]
  | cons s tl ih =>
    intro e cnt hv hp hve
    have hs := validDateStr_elim (hv s (List.mem_cons_self s tl))
    simp only [currentAuxStr, List.map_cons, chainCount, beq_iff_eq]
    by_cases h : formatDate (parseDateD s) = formatDate e
    · have hds : parseDateD s = e := formatDate_inj hs.2.2 hve h
      rw [if_pos h, if_pos (by rw [hds])]
      by_cases hz : e = ⟨0, 1, 1⟩
      · subst hz
        have hwalk : currentAuxStr tl (prevDay ⟨0, 1, 1⟩) (cnt + 1) = cnt + 1 := by
          cases tl with
          | nil => rfl
          | cons s2 tl2 =>
            have hs2 := validDateStr_elim
              (hv s2 (List.mem_cons_of_mem s (List.mem_cons_self s2 tl2)))
            have hlt : daysFromCivil (parseDateD s2) < daysFromCivil (parseDateD s) :=
              (List.pairwise_cons.mp hp).1 s2 (List.mem_cons_self s2 tl2)
            simp only [currentAuxStr, beq_iff_eq]
            rw [if_neg]
            intro hc
            have heq : parseDateD s2 = prevDay ⟨0, 1, 1⟩ :=
              formatDate_inj hs2.2.2 (prevDay_valid hve) hc
            have h1 : daysFromCivil (parseDateD s2) = 146402 := by
              rw [heq]; decide
            have h2 : daysFromCivil (parseDateD s) = 146037 := by
              rw [hds]; decide
            omega
        rw [hwalk]
        omega
      · have hdec := daysFromCivil_prevDay hve hz
        have harg : daysFromCivil (prevDay e) = daysFromCivil e - 1 := by omega
        have hih := ih (prevDay e) (cnt + 1)
          (fun x hx => hv x (List.mem_cons_of_mem _ hx))
          (List.pairwise_cons.mp hp).2 (prevDay_valid hve)
        rw [harg] at hih
        omega
    · rw [if_neg h]
      exact Nat.le_add_left cnt _

/-- On well-formed, strictly descending inputs, the current streak never
exceeds the longest streak. -/
lemma current_le_longest (now : SDate) (l : List String)
    (hl : ∀ s ∈ l, validDateStr s = true)
    (hdesc : l.Pairwise
      (fun a b => daysFromCivil (parseDateD b) < daysFromCivil (parseDateD a)))
    (hnow : validDate now = true) :
    calculateCurrentStreak now l ≤ calculateLongestStreak l := by
  cases l with
  | nil => simp [calculateCurrentStreak, calculateLongestStreak]
  | cons d0 tl =>
    rw [calculateLongestStreak_eq_spec]
    have hd0 := validDateStr_elim (hl d0 (List.mem_cons_self d0 tl))
    have hmapdesc : ((d0 :: tl).map fun s => daysFromCivil (parseDateD s)).Pairwise
        (· > ·) := List.Pairwise.map _ (fun a b hab => hab) hdesc
    have hbound : ∀ (anchor : SDate), validDate anchor = true →
        parseDateD d0 = anchor →
        currentAuxStr (d0 :: tl) anchor 0 ≤
          longestStreakSpec ((d0 :: tl).map fun s => daysFromCivil (parseDateD s)) := by
      intro anchor hva hpa
      have h1 := currentAuxStr_le_chain (d0 :: tl) anchor 0 hl hdesc hva
      have h2 : chainCount ((d0 :: tl).map fun s => daysFromCivil (parseDateD s))
          (daysFromCivil anchor) =
          chainCount ((d0 :: tl).map fun s => daysFromCivil (parseDateD s))
            (daysFromCivil (parseDateD d0)) := by rw [hpa]
      have h3 := chainCount_le_longest (daysFromCivil (parseDateD d0))
        (tl.map fun s => daysFromCivil (parseDateD s))
        (by simpa using hmapdesc)
      simp only [List.map_cons] at h1 h2 h3 ⊢
      omega
    simp only [calculateCurrentStreak, beq_iff_eq]
    by_cases h1 : d0 = formatDate now
    · rw [if_pos h1, parseDateD_format hnow]
      exact hbound now hnow
        (formatDate_inj hd0.2.2 hnow (by rw [hd0.2.1, h1]))
    · rw [if_neg h1]
      by_cases h2 : d0 = formatDate (prevDay now)
      · rw [if_pos h2, parseDateD_format (prevDay_valid hnow)]
        exact hbound (prevDay now) (prevDay_valid hnow)
          (formatDate_inj hd0.2.2 (prevDay_valid hnow) (by rw [hd0.2.1, h2]))
      · rw [if_neg h2]
        exact Nat.zero_le _

/-! ## Claim theorems -/

/-- C1: for every list of distinct session date strings sorted descending,
the longest-streak computation reverses the list into ascending order and
scans adjacent pairs, extending a running counter when two dates are
consecutive calendar days and restarting a run of length 1 otherwise,
returning the maximum run length seen; for the empty list it returns 0.
(Proved for every input list: the implementation equals the
day-count-level specification scan.) -/
theorem claim_C1_longest_streak :
    calculateLongestStreak [] = 0 ∧
    ∀ l : List String, calculateLongestStreak l =
      longestStreakSpec (l.map fun s => daysFromCivil (parseDateD s)) :=
  ⟨rfl, calculateLongestStreak_eq_spec⟩

/-- C2: for every descending list of distinct well-formed session date
strings and valid clock value, the current-streak computation returns 0
when the list is empty or the most recent date is neither today nor
yesterday, and otherwise counts entries matching an expected date that
decrements by one calendar day per step, stopping at the first mismatch;
in particular a 10-day consecutive run ending 3 days ago yields
current = 0 and longest = 10. -/
theorem claim_C2_current_streak (now : SDate) (l : List String)
    (hl : ∀ s ∈ l, validDateStr s = true) (hnow : validDate now = true) :
    calculateCurrentStreak now l = currentStreakSpec now (l.map parseDateD) ∧
    calculateCurrentStreak ⟨2025, 7, 10⟩
      ["2025-07-07", "2025-07-06", "2025-07-05", "2025-07-04", "2025-07-03",
       "2025-07-02", "2025-07-01", "2025-06-30", "2025-06-29", "2025-06-28"] = 0 ∧
    calculateLongestStreak
      ["2025-07-07", "2025-07-06", "2025-07-05", "2025-07-04", "2025-07-03",
       "2025-07-02", "2025-07-01", "2025-06-30", "2025-06-29", "2025-06-28"] = 10 :=
  ⟨calculateCurrentStreak_eq_spec now l hl hnow, by decide, by decide⟩

/-- Witness for C2 at a concrete clock and list. -/
theorem claim_C2_current_streak_witness :
    calculateCurrentStreak ⟨2025, 7, 10⟩ ["2025-07-09", "2025-07-08"] =
      currentStreakSpec ⟨2025, 7, 10⟩
        (["2025-07-09", "2025-07-08"].map parseDateD) :=
  (claim_C2_current_streak ⟨2025, 7, 10⟩ ["2025-07-09", "2025-07-08"]
    (by decide) (by decide)).1

/-- C3 (counterexample): with 30-second sessions in January and February
2024, the sum of the monthly minutes entries is 0, but the total session
duration of the year expressed in minutes is 1 — the claimed equality
fails. -/
theorem claim_C3_counterexample :
    (GetYearlyProgressE (pureStore Unit []
        [⟨"u", toUnixSec ⟨2024, 1, 15⟩, 30, false⟩,
         ⟨"u", toUnixSec ⟨2024, 2, 15⟩, 30, false⟩] "u") 2024).map
        (fun L => (L.map fun e => e.minutes).sum) ≠
      .ok (totalYearSeconds
        [⟨"u", toUnixSec ⟨2024, 1, 15⟩, 30, false⟩,
         ⟨"u", toUnixSec ⟨2024, 2, 15⟩, 30, false⟩] "u" 2024 / 60) := by
  decide

/-- C3 (amended): the consistency between the yearly entries and the
year's total duration holds exactly at the seconds level: the sum over
the 12 monthly entries of the seconds recovered from the hours field
(hours × 3600) equals the total duration in seconds of the user's
non-deleted sessions created within the year. The minutes form of the
claim fails because each month floors its own minutes. -/
theorem claim_C3_amended (ε : Type) (dates : List String) (db : List Session)
    (uid : String) (year : Nat) :
    (GetYearlyProgressE (pureStore ε dates db uid) year).map
        (fun L => ((L.map fun e => e.hours).sum) * 3600) =
      .ok ((totalYearSeconds db uid year : ℚ)) := by
  have hmap : (GetYearlyProgressE (pureStore ε dates db uid) year).map
      (fun L => ((L.map fun e => e.hours).sum) * 3600) =
      .ok (((yearlySpecList db uid year).map fun e => e.hours).sum * 3600) := rfl
  rw [hmap]
  congr 1
  have hh : (yearlySpecList db uid year).map (fun e => e.hours) =
      (List.range 12).map (fun j =>
        ((sumInRange db uid (monthStartSec year (j + 1))
          (nextMonthStartSec year (j + 1) - 1) : ℚ)) * (3600 : ℚ)⁻¹) := by
    simp only [yearlySpecList, List.map_map]
    apply List.map_congr_left
    intro j _
    simp [div_eq_mul_inv]
  rw [hh, List.sum_map_mul_right]
  have hcast : ((List.range 12).map fun j =>
      ((sumInRange db uid (monthStartSec year (j + 1))
        (nextMonthStartSec year (j + 1) - 1) : ℚ))).sum =
      (((List.range 12).map fun j => sumInRange db uid (monthStartSec year (j + 1))
        (nextMonthStartSec year (j + 1) - 1)).sum : ℚ) := by
    rw [Nat.cast_list_sum, List.map_map]
    rfl
  rw [hcast, year_partition db uid year, mul_assoc,
    inv_mul_cancel₀ (by norm_num), mul_one]

/-- C4: `GetWeeklyProgress` over the in-memory store returns exactly the
7-entry spec sequence, one entry per day of the window ending today in
oldest-first order, with minutes the floor-of-60 of that day's duration
sum, and a day with no matching sessions contributes a zero sum (the
entry is present with minutes 0, never omitted). -/
theorem claim_C4_weekly (ε : Type) (dates : List String) (db : List Session)
    (uid : String) (now : SDate) :
    GetWeeklyProgressE (pureStore ε dates db uid) now =
      .ok (weeklySpecList db uid now) ∧
    (weeklySpecList db uid now).length = 7 ∧
    (∀ j, j < 7 → (weeklySpecList db uid now).getD j ⟨"", "", 0⟩ =
      { day := weekdayName (prevDay^[6 - j] now)
        date := formatDate (prevDay^[6 - j] now)
        minutes := sumOnDay db uid (prevDay^[6 - j] now) / 60 }) ∧
    (∀ d, db.filter (fun s => liveFor uid s &&
        dayOfSec s.createdAt == daysFromCivil d) = [] →
      sumOnDay db uid d = 0) := by
  refine ⟨rfl, rfl, ?_, ?_⟩
  · intro j hj
    interval_cases j <;> rfl
  · intro d hd
    simp [sumOnDay, hd]

/-- Witness for C4 at a concrete day index and day. -/
theorem claim_C4_weekly_witness :
    (weeklySpecList [] "u" ⟨2025, 7, 3⟩).getD 0 ⟨"", "", 0⟩ =
      { day := weekdayName (prevDay^[6 - 0] (⟨2025, 7, 3⟩ : SDate))
        date := formatDate (prevDay^[6 - 0] (⟨2025, 7, 3⟩ : SDate))
        minutes := sumOnDay [] "u" (prevDay^[6 - 0] (⟨2025, 7, 3⟩ : SDate)) / 60 } ∧
    sumOnDay [] "u" ⟨2025, 7, 3⟩ = 0 :=
  ⟨(claim_C4_weekly Unit [] [] "u" ⟨2025, 7, 3⟩).2.2.1 0 (by norm_num),
   (claim_C4_weekly Unit [] [] "u" ⟨2025, 7, 3⟩).2.2.2 ⟨2025, 7, 3⟩ rfl⟩

/-- C5: `GetYearlyProgress` over the in-memory store returns exactly the
12-entry spec sequence in January→December order; each month's entry sums
durations over the inclusive window from the month's first instant to one
second before the next month's first instant, with floor minutes and
real-valued hours, and every month is present even when zero. -/
theorem claim_C5_yearly (ε : Type) (dates : List String) (db : List Session)
    (uid : String) (year : Nat) :
    GetYearlyProgressE (pureStore ε dates db uid) year =
      .ok (yearlySpecList db uid year) ∧
    (yearlySpecList db uid year).length = 12 ∧
    (yearlySpecList db uid year).map (fun e => e.month) = monthNames ∧
    (∀ j, j < 12 → (yearlySpecList db uid year).getD j ⟨"", 0, 0⟩ =
      { month := monthNames.getD j ""
        hours := (sumInRange db uid (monthStartSec year (j + 1))
          (nextMonthStartSec year (j + 1) - 1) : ℚ) / 3600
        minutes := sumInRange db uid (monthStartSec year (j + 1))
          (nextMonthStartSec year (j + 1) - 1) / 60 }) := by
  refine ⟨rfl, rfl, rfl, ?_⟩
  intro j hj
  interval_cases j <;> rfl

/-- Witness for C5 at a concrete month index. -/
theorem claim_C5_yearly_witness :
    (yearlySpecList [] "u" 2024).getD 0 ⟨"", 0, 0⟩ =
      { month := monthNames.getD 0 ""
        hours := (sumInRange [] "u" (monthStartSec 2024 1)
          (nextMonthStartSec 2024 1 - 1) : ℚ) / 3600
        minutes := sumInRange [] "u" (monthStartSec 2024 1)
          (nextMonthStartSec 2024 1 - 1) / 60 } :=
  (claim_C5_yearly Unit [] [] "u" 2024).2.2.2 0 (by norm_num)

/-- C6: `GetRecentSessions` replaces any limit ≤ 0 or > 100 with the
default 5, and returns the user's non-deleted sessions ordered by
creation time descending, capped at the sanitized limit; with limit 10
and only 3 sessions it returns 3. -/
theorem claim_C6_recent (ε : Type) (dates : List String) (db : List Session)
    (uid : String) (limit : Int) :
    ((limit ≤ 0 ∨ 100 < limit) →
      GetRecentSessionsE (pureStore ε dates db uid) limit =
        GetRecentSessionsE (pureStore ε dates db uid) 5) ∧
    GetRecentSessionsE (pureStore ε dates db uid) limit =
      .ok (recentQuery db uid (sanitizeLimit limit).toNat) ∧
    List.Pairwise createdDesc (recentQuery db uid (sanitizeLimit limit).toNat) ∧
    (∀ s ∈ recentQuery db uid (sanitizeLimit limit).toNat,
      s.userId = uid ∧ s.deleted = false) ∧
    ((db.filter (liveFor uid)).length = 3 →
      (recentQuery db uid (sanitizeLimit 10).toNat).length = 3) := by
  refine ⟨?_, rfl, ?_, ?_, ?_⟩
  · intro h
    simp only [GetRecentSessionsE, sanitizeLimit, if_pos h]
    norm_num
  · exact List.Pairwise.sublist (List.take_sublist _ _)
      (List.sorted_insertionSort createdDesc (db.filter (liveFor uid)))
  · intro s hs
    have h1 : s ∈ (db.filter (liveFor uid)).insertionSort createdDesc :=
      List.take_subset _ _ hs
    have h2 : s ∈ db.filter (liveFor uid) :=
      (List.mem_insertionSort createdDesc).mp h1
    have h3 := List.of_mem_filter h2
    simp only [liveFor, Bool.and_eq_true, beq_iff_eq, Bool.not_eq_true'] at h3
    exact h3
  · intro h3
    simp only [recentQuery, List.length_take, List.length_insertionSort, h3]
    norm_num [sanitizeLimit]

/-- Witness for C6: the clamp at limit 0 and the 3-session cap at
limit 10. -/
theorem claim_C6_recent_witness :
    GetRecentSessionsE (pureStore Unit [] [] "u") 0 =
      GetRecentSessionsE (pureStore Unit [] [] "u") 5 ∧
    (recentQuery [⟨"u", 1, 60, false⟩, ⟨"u", 2, 60, false⟩, ⟨"u", 3, 60, false⟩]
      "u" (sanitizeLimit 10).toNat).length = 3 :=
  ⟨(claim_C6_recent Unit [] [] "u" 0).1 (Or.inl (by norm_num)),
   (claim_C6_recent Unit []
     [⟨"u", 1, 60, false⟩, ⟨"u", 2, 60, false⟩, ⟨"u", 3, 60, false⟩]
     "u" 10).2.2.2.2 (by decide)⟩

/-- C7: `GetDashboardData` replaces `year ≤ 0` with the current calendar
year, and returns the first error of its four sub-operations in order
(streaks, weekly, yearly, recent), producing the full aggregate only when
all four succeed — no partial aggregate is ever returned. -/
theorem claim_C7_dashboard (ε : Type) (st : SessionStore ε) (user : User)
    (year sessionLimit : Int) (now : SDate) :
    (year ≤ 0 → GetDashboardDataE st user year sessionLimit now =
      GetDashboardDataE st user (now.year : Int) sessionLimit now) ∧
    (∀ e, CalculateStreaksE st now = .error e →
      GetDashboardDataE st user year sessionLimit now = .error e) ∧
    (∀ e s, CalculateStreaksE st now = .ok s →
      GetWeeklyProgressE st now = .error e →
      GetDashboardDataE st user year sessionLimit now = .error e) ∧
    (∀ e s w, CalculateStreaksE st now = .ok s →
      GetWeeklyProgressE st now = .ok w →
      GetYearlyProgressE st ((if year ≤ 0 then (now.year : Int) else year)).toNat =
        .error e →
      GetDashboardDataE st user year sessionLimit now = .error e) ∧
    (∀ e s w yp, CalculateStreaksE st now = .ok s →
      GetWeeklyProgressE st now = .ok w →
      GetYearlyProgressE st ((if year ≤ 0 then (now.year : Int) else year)).toNat =
        .ok yp →
      GetRecentSessionsE st sessionLimit = .error e →
      GetDashboardDataE st user year sessionLimit now = .error e) ∧
    (∀ s w yp r, CalculateStreaksE st now = .ok s →
      GetWeeklyProgressE st now = .ok w →
      GetYearlyProgressE st ((if year ≤ 0 then (now.year : Int) else year)).toNat =
        .ok yp →
      GetRecentSessionsE st sessionLimit = .ok r →
      GetDashboardDataE st user year sessionLimit now =
        .ok { user := user, streaks := s, weeklyProgress := w,
              yearlyProgress := yp, recentSessions := r }) := by
  refine ⟨?_, ?_, ?_, ?_, ?_, ?_⟩
  · intro hy
    simp only [GetDashboardDataE, if_pos hy, ite_self]
  · intro e he
    simp only [GetDashboardDataE, he]
  · intro e s hs he
    simp only [GetDashboardDataE, hs, he]
  · intro e s w hs hw he
    simp only [GetDashboardDataE, hs, hw, he]
  · intro e s w yp hs hw hy he
    simp only [GetDashboardDataE, hs, hw, hy, he]
  · intro s w yp r hs hw hy hr
    simp only [GetDashboardDataE, hs, hw, hy, hr]

/-- Witness for C7: a store whose every query fails makes the dashboard
fail with that error, and year 0 defaults to the clock's year. -/
theorem claim_C7_dashboard_witness :
    GetDashboardDataE
      ({ sessionDates := .error (), daySum := fun _ => .error (),
         rangeSum := fun _ _ => .error (),
         recentSessions := fun _ => .error () } : SessionStore Unit)
      ⟨"", "", "", ""⟩ 0 5 ⟨2025, 7, 3⟩ = .error () ∧
    GetDashboardDataE
      ({ sessionDates := .error (), daySum := fun _ => .error (),
         rangeSum := fun _ _ => .error (),
         recentSessions := fun _ => .error () } : SessionStore Unit)
      ⟨"", "", "", ""⟩ 0 5 ⟨2025, 7, 3⟩ =
    GetDashboardDataE
      ({ sessionDates := .error (), daySum := fun _ => .error (),
         rangeSum := fun _ _ => .error (),
         recentSessions := fun _ => .error () } : SessionStore Unit)
      ⟨"", "", "", ""⟩ (((⟨2025, 7, 3⟩ : SDate).year : Int)) 5 ⟨2025, 7, 3⟩ :=
  ⟨(claim_C7_dashboard Unit _ ⟨"", "", "", ""⟩ 0 5 ⟨2025, 7, 3⟩).2.1 () rfl,
   (claim_C7_dashboard Unit _ ⟨"", "", "", ""⟩ 0 5 ⟨2025, 7, 3⟩).1 (by norm_num)⟩

/-- C8: for parsed date values, the implementation's
timestamp-subtraction adjacency test (difference of exactly 24 hours) is
equivalent to day-count adjacency (day numbers differing by exactly one),
and consequently the implementation computes the same longest streak as
the day-count-difference reimplementation on every input list. -/
theorem claim_C8_adjacency :
    (∀ s1 s2 : String, subIs24Hours (parseDateD s2) (parseDateD s1) = true ↔
      daysFromCivil (parseDateD s2) = daysFromCivil (parseDateD s1) + 1) ∧
    ∀ l : List String, calculateLongestStreak l = longestStreakDayCount l :=
  ⟨fun s1 s2 => subIs24Hours_iff (parseDateD s2) (parseDateD s1),
   calculateLongestStreak_eq_dayCount⟩

/-- C9: for every list of distinct, well-formed, descending-sorted date
strings and every valid clock value, the streak pair satisfies
`0 ≤ current ≤ longest`. -/
theorem claim_C9_streak_invariant (now : SDate) (l : List String)
    (hl : ∀ s ∈ l, validDateStr s = true)
    (hdesc : l.Pairwise
      (fun a b => daysFromCivil (parseDateD b) < daysFromCivil (parseDateD a)))
    (hnow : validDate now = true) :
    0 ≤ calculateCurrentStreak now l ∧
    calculateCurrentStreak now l ≤ calculateLongestStreak l :=
  ⟨Nat.zero_le _, current_le_longest now l hl hdesc hnow⟩

/-- Witness for C9 at a concrete clock and list. -/
theorem claim_C9_streak_invariant_witness :
    0 ≤ calculateCurrentStreak ⟨2025, 7, 10⟩ ["2025-07-09", "2025-07-08"] ∧
    calculateCurrentStreak ⟨2025, 7, 10⟩ ["2025-07-09", "2025-07-08"] ≤
      calculateLongestStreak ["2025-07-09", "2025-07-08"] :=
  claim_C9_streak_invariant ⟨2025, 7, 10⟩ ["2025-07-09", "2025-07-08"]
    (by decide) (by decide) (by decide)

/-- C10: the sanitized limit always lies in [1, 100], so the recent-
sessions query never returns more than 100 rows, whatever limit the
caller passes and however many sessions exist. -/
theorem claim_C10_limit (limit : Int) :
    1 ≤ sanitizeLimit limit ∧ sanitizeLimit limit ≤ 100 ∧
    ∀ (ε : Type) (dates : List String) (db : List Session) (uid : String),
      GetRecentSessionsE (pureStore ε dates db uid) limit =
        .ok (recentQuery db uid (sanitizeLimit limit).toNat) ∧
      (recentQuery db uid (sanitizeLimit limit).toNat).length ≤ 100 := by
  have hs1 : 1 ≤ sanitizeLimit limit := by
    rw [sanitizeLimit]; split_ifs <;> omega
  have hs2 : sanitizeLimit limit ≤ 100 := by
    rw [sanitizeLimit]; split_ifs <;> omega
  refine ⟨hs1, hs2, ?_⟩
  intro ε dates db uid
  refine ⟨rfl, ?_⟩
  have h1 : (recentQuery db uid (sanitizeLimit limit).toNat).length ≤
      (sanitizeLimit limit).toNat := by
    rw [recentQuery, List.length_take]
    omega
  omega

end MindfulMinutes
